import Mathlib

/-!
Verification of `notebook/top-searcher-by-type-checkpoint.py` (brontes).

The script loads a block table and a bundle table, filters the bundle
table by `mev_type`, groups by `mev_contract`, sums `profit_usd`,
sorts by the sum descending and keeps the first 30 rows.

Shallow embedding choices, matching the polars version the script
targets (the `groupby` / `sort(..., reverse=True)` spelling):
* a table is a `List` of rows; nullable columns are `Option` values;
* `profit_usd` (a float column) is modelled as `Option ℚ` — exact
  arithmetic standing in for the numeric column;
* `is_in` on a null value returns `false` when the probed list holds
  no null (the pre-1.0 polars semantics), so `~is_in` keeps null rows;
* `groupby` puts null keys in their own single group and is modelled
  in first-seen key order; `sum` ignores nulls and is `0` on an empty
  or all-null group; the descending sort is modelled as a stable
  insertion sort, and `head(30)` as `List.take 30`.
-/

/-- A row of the bundle table: the three columns the script reads. -/
structure BundleRow where
  mev_type : Option String
  mev_contract : Option String
  profit_usd : Option ℚ
deriving DecidableEq, Repr

/-- A row of the aggregated output table. -/
structure TopRow where
  mev_contract : Option String
  total_profit_usd : ℚ
deriving DecidableEq, Repr

/-- `pl.col(c).is_in(xs)` on a nullable string column, for a probe list
without nulls: a null value is not a member (pre-1.0 polars). -/
def isInList (v : Option String) (xs : List String) : Bool :=
  match v with
  | none => false
  | some s => xs.contains s

/-- `filter_mev_types`: keep the rows whose `mev_type` is not
`"SearcherTx"` and not `"Unknown"`. -/
def filter_mev_types (bundles_df : List BundleRow) : List BundleRow :=
  bundles_df.filter (fun r => !(isInList r.mev_type ["SearcherTx", "Unknown"]))

/-- The group keys of a column, first occurrence first, each key once —
the partition keys of `groupby`. -/
def dedupKeys {α : Type} [DecidableEq α] : List α → List α
  | [] => []
  | x :: xs => x :: ((dedupKeys xs).filter (fun y => decide (y ≠ x)))

/-- The rows of a table whose key column equals `k` — one `groupby`
partition (a null key is its own partition). -/
def groupRows {ρ : Type} (key : ρ → Option String) (k : Option String)
    (df : List ρ) : List ρ :=
  df.filter (fun r => decide (key r = k))

/-- `pl.col("profit_usd").sum()` over one partition: nulls are ignored
(contribute 0), and an empty or all-null partition sums to 0. -/
def groupSum {ρ : Type} (key : ρ → Option String) (profit : ρ → Option ℚ)
    (k : Option String) (df : List ρ) : ℚ :=
  ((groupRows key k df).map (fun r => (profit r).getD 0)).sum

/-- The descending order on output rows used by
`sort("total_profit_usd", reverse=True)`. -/
def byPnlDesc (a b : TopRow) : Prop :=
  b.total_profit_usd ≤ a.total_profit_usd

instance : DecidableRel byPnlDesc :=
  fun a b => inferInstanceAs (Decidable (b.total_profit_usd ≤ a.total_profit_usd))

instance : IsTotal TopRow byPnlDesc :=
  ⟨fun a b => le_total b.total_profit_usd a.total_profit_usd⟩

instance : IsTrans TopRow byPnlDesc :=
  ⟨fun _ _ _ h1 h2 => le_trans h2 h1⟩

/-- `groupby("mev_contract").agg(sum).sort(desc).head(30)`, generic in
the row type so it can be re-applied to its own output. -/
def aggByContract {ρ : Type} (key : ρ → Option String) (profit : ρ → Option ℚ)
    (df : List ρ) : List TopRow :=
  (((dedupKeys (df.map key)).map
      (fun k => TopRow.mk k (groupSum key profit k df))).insertionSort
        byPnlDesc).take 30

/-- `get_top_searchers_by_pnl` applied to a bundle table. -/
def get_top_searchers_by_pnl (bundles_df : List BundleRow) : List TopRow :=
  aggByContract (fun r => r.mev_contract) (fun r => r.profit_usd) bundles_df

/-- `read_data`: the two parquet files, already parsed into tables (the
block table's schema is unconstrained, hence the type parameter). -/
def read_data {β : Type} (blocks_file : List β) (bundles_file : List BundleRow) :
    List β × List BundleRow :=
  (blocks_file, bundles_file)

/-- The `__main__` pipeline: load both tables, filter the bundle table,
aggregate, and print a header plus the top-searchers table.  The result
records everything the run derives from its inputs: the filtered table
and the printed header and top-searchers table. -/
def main_run {β : Type} (blocks_file : List β) (bundles_file : List BundleRow) :
    List BundleRow × String × List TopRow :=
  let dfs := read_data blocks_file bundles_file
  let filtered_bundles_df := filter_mev_types dfs.2
  (filtered_bundles_df,
    "Top 30 Searchers by PNL (excluding SearcherTx and Unknown MEV types):",
    get_top_searchers_by_pnl filtered_bundles_df)

/-- The spec's worked example table: rows
`[(A, Backrun, 10), (A, Backrun, 5), (B, Liquidation, 100),
  (C, SearcherTx, 1000), (D, Unknown, 500)]`. -/
def exampleDf : List BundleRow :=
  [ BundleRow.mk (some "Backrun") (some "A") (some 10)
  , BundleRow.mk (some "Backrun") (some "A") (some 5)
  , BundleRow.mk (some "Liquidation") (some "B") (some 100)
  , BundleRow.mk (some "SearcherTx") (some "C") (some 1000)
  , BundleRow.mk (some "Unknown") (some "D") (some 500) ]

/-- A row with a null `mev_type`, for the null-retention boundary case. -/
def nullTypeRow : BundleRow :=
  BundleRow.mk none (some "E") (some 7)

/-- The spec's example table after filtering: the `SearcherTx` and
`Unknown` rows are gone. -/
def exampleFilteredDf : List BundleRow :=
  [ BundleRow.mk (some "Backrun") (some "A") (some 10)
  , BundleRow.mk (some "Backrun") (some "A") (some 5)
  , BundleRow.mk (some "Liquidation") (some "B") (some 100) ]

/-- Every element of `dedupKeys l` is an element of `l` and back. -/
theorem mem_dedupKeys {α : Type} [DecidableEq α] {a : α} :
    ∀ {l : List α}, a ∈ dedupKeys l ↔ a ∈ l
  | [] => Iff.rfl
  | x :: xs => by
    by_cases hax : a = x
    · subst hax
      simp [dedupKeys]
    · simp [dedupKeys, List.mem_filter, hax, mem_dedupKeys (l := xs)]

/-- `dedupKeys` lists each key exactly once. -/
theorem dedupKeys_nodup {α : Type} [DecidableEq α] :
    ∀ (l : List α), (dedupKeys l).Nodup
  | [] => List.nodup_nil
  | x :: xs => by
    rw [dedupKeys, List.nodup_cons]
    refine ⟨fun hx => ?_, (dedupKeys_nodup xs).filter _⟩
    have := (List.mem_filter.mp hx).2
    simp at this

/-- `dedupKeys` leaves a duplicate-free list unchanged. -/
theorem dedupKeys_eq_self {α : Type} [DecidableEq α] :
    ∀ {l : List α}, l.Nodup → dedupKeys l = l
  | [], _ => rfl
  | x :: xs, h => by
    obtain ⟨hx, hxs⟩ := List.nodup_cons.mp h
    rw [dedupKeys, dedupKeys_eq_self hxs,
      List.filter_eq_self.mpr (fun y hy => by
        simp only [decide_eq_true_eq]
        exact fun hyx => hx (hyx ▸ hy))]

/-- `dedupKeys` has the same `Finset` of elements as its input. -/
theorem toFinset_dedupKeys {α : Type} [DecidableEq α] (l : List α) :
    (dedupKeys l).toFinset = l.toFinset := by
  ext a
  simp [List.mem_toFinset, mem_dedupKeys]

/-- The length of `dedupKeys l` is the number of distinct values of `l`. -/
theorem length_dedupKeys {α : Type} [DecidableEq α] (l : List α) :
    (dedupKeys l).length = l.toFinset.card := by
  rw [← toFinset_dedupKeys, List.toFinset_card_of_nodup (dedupKeys_nodup l)]

/-- The spec's worked example, first half: filtering the example table
drops exactly the `SearcherTx` and `Unknown` rows. -/
theorem filter_exampleDf_eval :
    filter_mev_types exampleDf = exampleFilteredDf := rfl

/-- The spec's worked example, second half: aggregating the filtered
example table yields `[(B, 100), (A, 15)]`. -/
theorem agg_exampleDf_eval :
    get_top_searchers_by_pnl exampleFilteredDf =
      [TopRow.mk (some "B") 100, TopRow.mk (some "A") 15] := by
  simp +decide only [get_top_searchers_by_pnl, aggByContract, exampleFilteredDf,
    dedupKeys, groupSum, groupRows, byPnlDesc, List.insertionSort,
    List.orderedInsert, List.filter, List.map, List.take]
  norm_num

/-- C1: a row whose `mev_type` is null is retained by the filter: it is
a member of the filtered table whenever it is a member of the input. -/
theorem filter_retains_null_mev_type (df : List BundleRow) (r : BundleRow)
    (hmem : r ∈ df) (hnull : r.mev_type = none) :
    r ∈ filter_mev_types df := by
  rw [filter_mev_types, List.mem_filter]
  exact ⟨hmem, by simp [isInList, hnull]⟩

/-- Witness for C1 on a concrete table containing a null-typed row. -/
theorem filter_retains_null_mev_type_witness :
    nullTypeRow ∈ filter_mev_types (exampleDf ++ [nullTypeRow]) :=
  filter_retains_null_mev_type (exampleDf ++ [nullTypeRow]) nullTypeRow
    (by decide) rfl

/-- C2: every row of the filter's output is a row of the input, and no
output row has `mev_type` equal to `"SearcherTx"` or `"Unknown"`. -/
theorem filter_subset_and_excludes (df : List BundleRow) (r : BundleRow)
    (h : r ∈ filter_mev_types df) :
    r ∈ df ∧ r.mev_type ≠ some "SearcherTx" ∧ r.mev_type ≠ some "Unknown" := by
  rw [filter_mev_types, List.mem_filter] at h
  refine ⟨h.1, ?_, ?_⟩ <;> intro hEq <;>
    simp [isInList, hEq] at h

/-- Witness for C2 at a concrete retained row of the example table. -/
theorem filter_subset_and_excludes_witness :
    BundleRow.mk (some "Liquidation") (some "B") (some 100) ∈ exampleDf ∧
      (BundleRow.mk (some "Liquidation") (some "B") (some 100)).mev_type ≠
        some "SearcherTx" ∧
      (BundleRow.mk (some "Liquidation") (some "B") (some 100)).mev_type ≠
        some "Unknown" :=
  filter_subset_and_excludes exampleDf _ (by decide)

/-- C8: the aggregator maps the empty bundle table to the empty output
table (and, being a total function, raises no error). -/
theorem agg_empty_table : get_top_searchers_by_pnl [] = [] := rfl

/-- C9: the block table is dead data — two runs with equal bundle
tables produce the same filtered table and the same printed output,
whatever the block files hold (even block tables of different types). -/
theorem blocks_are_dead_data {β₁ β₂ : Type}
    (blocks₁ : List β₁) (blocks₂ : List β₂) (bundles : List BundleRow) :
    main_run blocks₁ bundles = main_run blocks₂ bundles := rfl

/-- C3: the aggregator's output row count equals
`min 30 (number of distinct mev_contract values)`, a null key counting
as one distinct value. -/
theorem agg_row_count (df : List BundleRow) :
    (get_top_searchers_by_pnl df).length =
      min 30 ((df.map (fun r => r.mev_contract)).toFinset.card) := by
  rw [get_top_searchers_by_pnl, aggByContract, List.length_take,
    List.length_insertionSort, List.length_map, length_dedupKeys]

/-- The aggregator's output is sorted descending by `total_profit_usd`. -/
theorem agg_output_sorted (df : List BundleRow) :
    List.Sorted byPnlDesc (get_top_searchers_by_pnl df) := by
  rw [get_top_searchers_by_pnl, aggByContract]
  exact List.Pairwise.sublist (List.take_sublist _ _)
    (List.sorted_insertionSort byPnlDesc _)

/-- C6: for adjacent output rows `i` and `i + 1`, the value of
`total_profit_usd` at row `i` is at least the value at row `i + 1`. -/
theorem agg_sorted_desc (df : List BundleRow) (i : Nat)
    (h : i + 1 < (get_top_searchers_by_pnl df).length) :
    ((get_top_searchers_by_pnl df).get ⟨i + 1, h⟩).total_profit_usd ≤
      ((get_top_searchers_by_pnl df).get ⟨i, Nat.lt_of_succ_lt h⟩).total_profit_usd :=
  List.pairwise_iff_get.mp (agg_output_sorted df) ⟨i, Nat.lt_of_succ_lt h⟩
    ⟨i + 1, h⟩ (Fin.mk_lt_mk.mpr (Nat.lt_succ_self i))

/-- Witness for C6 on the filtered example table, at rows 0 and 1. -/
theorem agg_sorted_desc_witness :
    ((get_top_searchers_by_pnl exampleFilteredDf).get
        ⟨1, by rw [agg_exampleDf_eval]; decide⟩).total_profit_usd ≤
      ((get_top_searchers_by_pnl exampleFilteredDf).get
        ⟨0, by rw [agg_exampleDf_eval]; decide⟩).total_profit_usd :=
  agg_sorted_desc exampleFilteredDf 0 (by rw [agg_exampleDf_eval]; decide)

/-- Summing with nulls replaced by 0 is summing the non-null values. -/
theorem sum_map_getD_eq_sum_filterMap {ρ : Type} (profit : ρ → Option ℚ) :
    ∀ l : List ρ,
      (l.map (fun r => (profit r).getD 0)).sum = (l.filterMap profit).sum
  | [] => rfl
  | r :: l => by
    cases h : profit r <;>
      simp [List.filterMap_cons, h, sum_map_getD_eq_sum_filterMap profit l]

/-- C7: each output row's `total_profit_usd` is the sum of the non-null
`profit_usd` values of the input rows sharing its `mev_contract` key
(so nulls contribute 0, and an all-null partition totals 0). -/
theorem agg_total_is_group_sum (df : List BundleRow) (row : TopRow)
    (h : row ∈ get_top_searchers_by_pnl df) :
    row.total_profit_usd =
      ((df.filter (fun r => decide (r.mev_contract = row.mev_contract))).filterMap
          (fun r => r.profit_usd)).sum := by
  rw [get_top_searchers_by_pnl, aggByContract] at h
  have h1 := List.mem_of_mem_take h
  rw [List.mem_insertionSort] at h1
  obtain ⟨k, hk, heq⟩ := List.mem_map.mp h1
  subst heq
  simpa only [groupSum, groupRows] using
    sum_map_getD_eq_sum_filterMap (fun r : BundleRow => r.profit_usd)
      (df.filter (fun r => decide (r.mev_contract = k)))

/-- Witness for C7: in the aggregated example, the `B` row's total is
the sum of the `profit_usd` values of the `B` input rows. -/
theorem agg_total_is_group_sum_witness :
    TopRow.mk (some "B") 100 ∈ get_top_searchers_by_pnl exampleFilteredDf ∧
      (TopRow.mk (some "B") 100).total_profit_usd =
        ((exampleFilteredDf.filter (fun r =>
            decide (r.mev_contract = (TopRow.mk (some "B") 100).mev_contract))).filterMap
          (fun r => r.profit_usd)).sum :=
  ⟨by rw [agg_exampleDf_eval]; decide,
   agg_total_is_group_sum exampleFilteredDf (TopRow.mk (some "B") 100)
     (by rw [agg_exampleDf_eval]; decide)⟩

/-- Over a duplicate-free key list, a map that is `c` at one present key
and `0` elsewhere sums to `c`. -/
theorem sum_map_ite_eq_single {α : Type} [DecidableEq α] (c : ℚ) :
    ∀ (ks : List α) (a : α), ks.Nodup → a ∈ ks →
      (ks.map (fun k => if a = k then c else 0)).sum = c
  | [], _, _, ha => absurd ha (List.not_mem_nil _)
  | k :: ks, a, hnd, ha => by
    obtain ⟨hk, hks⟩ := List.nodup_cons.mp hnd
    rcases List.mem_cons.mp ha with rfl | ha
    · have hz : (ks.map (fun k' => if a = k' then c else 0)).sum = 0 := by
        refine List.sum_eq_zero (fun x hx => ?_)
        obtain ⟨k', hk', rfl⟩ := List.mem_map.mp hx
        refine if_neg (fun h => hk ?_)
        rw [h]
        exact hk'
      simp [hz]
    · have hak : a ≠ k := fun h => hk (h ▸ ha)
      simp only [List.map_cons, List.sum_cons, if_neg hak,
        sum_map_ite_eq_single c ks a hks ha, zero_add]

/-- Splitting one partition sum at a cons: the head contributes its
(null-defaulted) profit exactly when its key matches. -/
theorem groupSum_cons {ρ : Type} (key : ρ → Option String) (profit : ρ → Option ℚ)
    (k : Option String) (r : ρ) (df : List ρ) :
    groupSum key profit k (r :: df) =
      (if key r = k then (profit r).getD 0 else 0) + groupSum key profit k df := by
  by_cases h : key r = k <;>
    simp [groupSum, groupRows, List.filter_cons, h]

/-- Partition sums over any duplicate-free key list covering a table's
keys add up to the table's total (null profits counting 0). -/
theorem sum_over_keys {ρ : Type} (key : ρ → Option String) (profit : ρ → Option ℚ) :
    ∀ (df : List ρ) (ks : List (Option String)), ks.Nodup →
      (∀ r ∈ df, key r ∈ ks) →
      (ks.map (fun k => groupSum key profit k df)).sum =
        (df.map (fun r => (profit r).getD 0)).sum
  | [], ks, _, _ => by
    have hz : ∀ x ∈ ks.map (fun k => groupSum key profit k ([] : List ρ)), x = 0 := by
      intro x hx
      obtain ⟨k, _, rfl⟩ := List.mem_map.mp hx
      rfl
    simpa using List.sum_eq_zero hz
  | r :: df, ks, hnd, hcov => by
    have hrk : key r ∈ ks := hcov r (List.mem_cons_self r df)
    calc (ks.map (fun k => groupSum key profit k (r :: df))).sum
        = (ks.map (fun k =>
            (if key r = k then (profit r).getD 0 else 0) +
              groupSum key profit k df)).sum := by
          simp only [groupSum_cons]
      _ = (ks.map (fun k => if key r = k then (profit r).getD 0 else 0)).sum +
            (ks.map (fun k => groupSum key profit k df)).sum := List.sum_map_add
      _ = (profit r).getD 0 + (df.map (fun x => (profit x).getD 0)).sum := by
          rw [sum_map_ite_eq_single ((profit r).getD 0) ks (key r) hnd hrk,
            sum_over_keys key profit df ks hnd
              (fun x hx => hcov x (List.mem_cons_of_mem r hx))]
      _ = ((r :: df).map (fun x => (profit x).getD 0)).sum := by simp

/-- C4: with fewer than 30 distinct `mev_contract` values, the output's
`total_profit_usd` values sum to the input's `profit_usd` total. -/
theorem agg_sum_invariant (df : List BundleRow)
    (h : (df.map (fun r => r.mev_contract)).toFinset.card < 30) :
    ((get_top_searchers_by_pnl df).map (fun t => t.total_profit_usd)).sum =
      (df.map (fun r => (r.profit_usd).getD 0)).sum := by
  rw [get_top_searchers_by_pnl, aggByContract]
  have hlen : (((dedupKeys (df.map (fun r => r.mev_contract))).map
      (fun k => TopRow.mk k
        (groupSum (fun r => r.mev_contract) (fun r => r.profit_usd) k
          df))).insertionSort byPnlDesc).length ≤ 30 := by
    rw [List.length_insertionSort, List.length_map, length_dedupKeys]
    exact le_of_lt h
  rw [List.take_of_length_le hlen]
  rw [List.Perm.sum_eq ((List.perm_insertionSort byPnlDesc _).map
    (fun t => t.total_profit_usd))]
  rw [List.map_map]
  have hmain := sum_over_keys (fun r : BundleRow => r.mev_contract)
    (fun r => r.profit_usd) df (dedupKeys (df.map (fun r => r.mev_contract)))
    (dedupKeys_nodup _)
    (fun r hr => mem_dedupKeys.mpr (List.mem_map_of_mem _ hr))
  simpa [Function.comp] using hmain

/-- Witness for C4 on the filtered example table. -/
theorem agg_sum_invariant_witness :
    (exampleFilteredDf.map (fun r => r.mev_contract)).toFinset.card < 30 ∧
      ((get_top_searchers_by_pnl exampleFilteredDf).map
          (fun t => t.total_profit_usd)).sum =
        (exampleFilteredDf.map (fun r => (r.profit_usd).getD 0)).sum :=
  ⟨by decide, agg_sum_invariant exampleFilteredDf (by decide)⟩

/-- The aggregator's output has duplicate-free `mev_contract` keys. -/
theorem agg_keys_nodup {ρ : Type} (key : ρ → Option String) (profit : ρ → Option ℚ)
    (df : List ρ) :
    ((aggByContract key profit df).map (fun t => t.mev_contract)).Nodup := by
  rw [aggByContract, List.map_take]
  refine List.Nodup.sublist (List.take_sublist _ _) ?_
  refine ((List.perm_insertionSort byPnlDesc _).map
    (fun t : TopRow => t.mev_contract)).symm.nodup ?_
  rw [List.map_map]
  have hid : List.map ((fun t : TopRow => t.mev_contract) ∘ fun k =>
      TopRow.mk k (groupSum key profit k df)) (dedupKeys (df.map key)) =
      dedupKeys (df.map key) := List.map_id _
  rw [hid]
  exact dedupKeys_nodup (df.map key)

/-- In a table whose keys are duplicate-free, the partition of a member
row's key is exactly that one row. -/
theorem groupRows_eq_singleton :
    ∀ (l : List TopRow) (t : TopRow),
      (l.map (fun x => x.mev_contract)).Nodup → t ∈ l →
      groupRows (fun x => x.mev_contract) t.mev_contract l = [t]
  | [], t, _, ht => absurd ht (List.not_mem_nil t)
  | r :: l, t, hnd, ht => by
    rw [List.map_cons, List.nodup_cons] at hnd
    obtain ⟨hr, hl⟩ := hnd
    rcases List.mem_cons.mp ht with rfl | ht
    · rw [groupRows, List.filter_cons, if_pos (by simp)]
      have hz : List.filter
          (fun x => decide (x.mev_contract = t.mev_contract)) l = [] := by
        rw [List.filter_eq_nil_iff]
        intro x hx
        simp only [decide_eq_true_eq]
        exact fun hxt =>
          hr (hxt ▸ List.mem_map_of_mem (fun x => x.mev_contract) hx)
      rw [hz]
    · have hrt : ¬(r.mev_contract = t.mev_contract) := fun h =>
        hr (h.symm ▸ List.mem_map_of_mem (fun x => x.mev_contract) ht)
      rw [groupRows, List.filter_cons, if_neg (by simpa using hrt)]
      exact groupRows_eq_singleton l t hl ht

/-- Re-aggregating a duplicate-free-keyed output row recreates it:
its partition is itself alone and its profit is non-null. -/
theorem reagg_pointwise (l : List TopRow)
    (hnd : (l.map (fun x => x.mev_contract)).Nodup)
    (t : TopRow) (ht : t ∈ l) :
    TopRow.mk t.mev_contract
      (groupSum (fun x => x.mev_contract) (fun x => some x.total_profit_usd)
        t.mev_contract l) = t := by
  rw [groupSum, groupRows_eq_singleton l t hnd ht]
  simp

/-- C5: the aggregator is idempotent on its own output — re-aggregating
with `total_profit_usd` read as the profit column and `mev_contract` as
the key returns the same rows in the same order. -/
theorem agg_idempotent (df : List BundleRow) :
    aggByContract (fun t => t.mev_contract) (fun t => some t.total_profit_usd)
        (get_top_searchers_by_pnl df) =
      get_top_searchers_by_pnl df := by
  have hnd : ((get_top_searchers_by_pnl df).map (fun t => t.mev_contract)).Nodup := by
    rw [get_top_searchers_by_pnl]
    exact agg_keys_nodup (fun r => r.mev_contract) (fun r => r.profit_usd) df
  have hsorted : List.Sorted byPnlDesc (get_top_searchers_by_pnl df) :=
    agg_output_sorted df
  have hlen : (get_top_searchers_by_pnl df).length ≤ 30 := by
    rw [get_top_searchers_by_pnl, aggByContract]
    exact List.length_take_le 30 _
  rw [aggByContract, dedupKeys_eq_self hnd, List.map_map]
  have hmap : (get_top_searchers_by_pnl df).map
      ((fun k => TopRow.mk k
          (groupSum (fun t : TopRow => t.mev_contract)
            (fun t => some t.total_profit_usd) k
            (get_top_searchers_by_pnl df))) ∘ (fun t => t.mev_contract)) =
      get_top_searchers_by_pnl df := by
    refine Eq.trans (List.map_congr_left (fun t ht => ?_))
      (List.map_id (get_top_searchers_by_pnl df))
    exact reagg_pointwise (get_top_searchers_by_pnl df) hnd t ht
  rw [hmap, hsorted.insertionSort_eq, List.take_of_length_le hlen]

/-- C10: the filter is idempotent — filtering an already-filtered table
returns it unchanged, same rows in the same order. -/
theorem filter_idempotent (df : List BundleRow) :
    filter_mev_types (filter_mev_types df) = filter_mev_types df :=
  List.filter_eq_self.mpr (fun _ hr => (List.mem_filter.mp hr).2)
